import Mathlib

/-
Verification of the `scene` crate: a reference-counted object store where
handle clones/drops are deferred through two queues and reconciled by an
explicit `garbage_collect` pass (src/scene.rs, src/event.rs).

Modelling conventions:
* The `Scene<T, E>` type parameter `E` is instantiated to `Event` itself
  (the `Event: Into<E>` conversion is the identity), so the event buffer
  holds `Event` values directly.
* `Arc<State>` pointer identity is modelled by a numeric `tag` carried by
  the scene and by every handle; `Arc::ptr_eq` is tag equality.  Distinct
  `Scene::new` calls allocate distinct `Arc`s, hence distinct tags.
* Rust panics (`assert!`, `.unwrap()`) are `none` results.
* The lock-free `SegQueue` is a FIFO list: `push` appends at the back,
  `pop` takes the head.
-/

namespace SceneVerif

/-- `Event` from src/event.rs: `New(usize)` or `Drop(usize)`. -/
inductive Event where
  | new (index : Nat)
  | drop (index : Nat)
deriving DecidableEq, Repr

/-- Modelled from the spec (§4.1 Slot Table): the slot table is the external
`slab::Slab` dependency, whose sources are not part of this repository.
Entries live in a growable vector of optional cells; `remove` pushes the
freed index on a free list and `insert` reuses the most recently freed
index first (the crate's vacant-chain behaviour), appending a fresh cell
only when the free list is empty. -/
structure Slab (A : Type) where
  entries : List (Option A)
  free : List Nat
deriving Repr

/-- `Slab::new`. -/
def Slab.empty (A : Type) : Slab A := ⟨[], []⟩

/-- `Slab::get`: `Some` exactly on occupied in-range indices. -/
def Slab.get {A : Type} (s : Slab A) (i : Nat) : Option A :=
  (s.entries[i]?).bind (fun o => o)

/-- Overwrite the (occupied) cell at `i`; models writing through
`Slab::get_mut`. -/
def Slab.set {A : Type} (s : Slab A) (i : Nat) (a : A) : Slab A :=
  { s with entries := s.entries.set i (some a) }

/-- `Slab::insert`: reuse the head of the free list, else append. -/
def Slab.insert {A : Type} (s : Slab A) (a : A) : Slab A × Nat :=
  match s.free with
  | i :: rest => ({ entries := s.entries.set i (some a), free := rest }, i)
  | [] => ({ entries := s.entries ++ [some a], free := [] }, s.entries.length)

/-- `Slab::remove`: vacate the cell and recycle the index.  The fallback
branch (removing an already-vacant index) is unreachable in the scene
code, which removes only after a successful `get_mut`. -/
def Slab.remove {A : Type} (s : Slab A) (i : Nat) : Slab A :=
  match s.entries[i]? with
  | some (some _) => { entries := s.entries.set i none, free := i :: s.free }
  | _ => s

/-- Well-formedness of the slab's free list: no duplicates, and every
free index points at an in-range vacant cell.  This is an invariant the
`slab` crate maintains internally. -/
def SlabInv {A : Type} (s : Slab A) : Prop :=
  s.free.Nodup ∧ ∀ i ∈ s.free, s.entries[i]? = some none

/-- `Entry<T>` from src/scene.rs: payload plus reference count. -/
structure Entry (T : Type) where
  data : T
  refs : Nat
deriving DecidableEq, Repr

/-- `Entry::grab`: `refs += 1`. -/
def Entry.grab {T : Type} (e : Entry T) : Entry T :=
  { e with refs := e.refs + 1 }

/-- `Entry::release`: `refs -= 1`, reporting whether the count reached
zero. -/
def Entry.release {T : Type} (e : Entry T) : Entry T × Bool :=
  ({ e with refs := e.refs - 1 }, e.refs - 1 == 0)

/-- `Scene<T, E>` from src/scene.rs with `E := Event`: the slab of
entries, the shared state's two queues (`tag` standing for the `Arc`'s
pointer identity) and the event buffer. -/
structure Scene (T : Type) where
  tag : Nat
  slab : Slab (Entry T)
  grabs : List Nat
  releases : List Nat
  events : List Event

/-- `Scene::new`, with `tag` naming the fresh `Arc<State>` allocation. -/
def Scene.new (T : Type) (tag : Nat) : Scene T :=
  { tag := tag, slab := Slab.empty (Entry T), grabs := [], releases := [], events := [] }

/-- Strong handle `Id<T>`: the referenced shared state (by tag) and the
slot index.  The `PhantomData` component is erased. -/
structure Id where
  tag : Nat
  index : Nat
deriving DecidableEq, Repr

/-- Weak handle `WeakId<T>`: weak reference to the shared state (by tag)
and the slot index. -/
structure WeakId where
  tag : Nat
  index : Nat
deriving DecidableEq, Repr

/-- `Scene::id`: look the index up; on success push a grab onto the
scene's grab queue and hand out a strong handle to the scene's state. -/
def Scene.id {T : Type} (s : Scene T) (index : Nat) : Scene T × Option Id :=
  match s.slab.get index with
  | some _ => ({ s with grabs := s.grabs ++ [index] }, some { tag := s.tag, index := index })
  | none => (s, none)

/-- `Scene::get`: `assert!(Arc::ptr_eq(&id.0, &self.state))` then
`self.slab.get(id.1).unwrap()`; either failure is a panic (`none`).
The returned payload stands for the `Ref` view's target. -/
def Scene.get {T : Type} (s : Scene T) (h : Id) : Option T :=
  if h.tag = s.tag then (s.slab.get h.index).map Entry.data else none

/-- `Scene::get_mut`, same checks as `Scene::get`; the returned payload
stands for the `Mut` view's target. -/
def Scene.get_mut {T : Type} (s : Scene T) (h : Id) : Option T :=
  if h.tag = s.tag then (s.slab.get h.index).map Entry.data else none

/-- The grab-drain loop of `Scene::garbage_collect`:
`while let Some(id) = grabs.pop() { slab.get_mut(id).unwrap().grab() }`. -/
def drainGrabs {T : Type} : Slab (Entry T) → List Nat → Option (Slab (Entry T))
  | sl, [] => some sl
  | sl, i :: q =>
    match sl.get i with
    | some e => drainGrabs (sl.set i e.grab) q
    | none => none

/-- The release-drain loop of `Scene::garbage_collect`: pop each queued
index, decrement via `Entry::release` (unwrap is a panic on a vacant
slot), and on reaching zero remove the slot and append `Drop(index)`. -/
def drainReleases {T : Type} :
    Slab (Entry T) → List Nat → List Event → Option (Slab (Entry T) × List Event)
  | sl, [], evs => some (sl, evs)
  | sl, i :: q, evs =>
    match sl.get i with
    | some e =>
      let p := e.release
      if p.2 then
        drainReleases (Slab.remove (sl.set i p.1) i) q (evs ++ [Event.drop i])
      else
        drainReleases (sl.set i p.1) q evs
    | none => none

/-- `Scene::garbage_collect`: drain all grabs, then drain all releases;
both queues are empty afterwards. -/
def Scene.garbage_collect {T : Type} (s : Scene T) : Option (Scene T) :=
  (drainGrabs s.slab s.grabs).bind fun sl1 =>
    (drainReleases sl1 s.releases s.events).map fun p =>
      { s with slab := p.1, grabs := [], releases := [], events := p.2 }

/-- `Scene::insert`: put a fresh entry with `refs = 1` in the slab,
append `New(index)` to the event buffer, return the strong handle. -/
def Scene.insert {T : Type} (s : Scene T) (t : T) : Scene T × Id :=
  let p := s.slab.insert { data := t, refs := 1 }
  ({ s with slab := p.1, events := s.events ++ [Event.new p.2] },
   { tag := s.tag, index := p.2 })

/-- `Scene::clear_events`. -/
def Scene.clear_events {T : Type} (s : Scene T) : Scene T :=
  { s with events := [] }

/-- `impl Clone for Id`: push a grab for the handle's index onto the
queue of the state the handle references (the issuing scene's queue),
then return a handle to the same state and index. -/
def Id.clone {T : Type} (s : Scene T) (h : Id) : Scene T × Id :=
  ({ s with grabs := s.grabs ++ [h.index] }, { tag := h.tag, index := h.index })

/-- `impl Drop for Id`: push a release for the handle's index onto the
queue of the state the handle references (the issuing scene's queue). -/
def Id.dropHandle {T : Type} (s : Scene T) (h : Id) : Scene T :=
  { s with releases := s.releases ++ [h.index] }

/-- `impl PartialEq for Id`: same shared state (`Arc::ptr_eq`, i.e. same
tag) and same index. -/
def Id.eq (a b : Id) : Bool :=
  (a.tag == b.tag) && (a.index == b.index)

/-- `Id::downgrade`: same state (now weakly referenced), same index. -/
def Id.downgrade (h : Id) : WeakId :=
  { tag := h.tag, index := h.index }

/-- `WeakId::upgrade`.  `stateAlive` says whether `self.0.upgrade()` (the
`Weak<State>` to `Arc<State>` upgrade) succeeds; the source unwraps it, so
a dead state is a panic (`none`).  On success the source looks the index
up in the passed scene's slab and, if occupied, builds the strong handle
directly from the upgraded state and the stored index — nothing is pushed
onto the grab queue. -/
def WeakId.upgrade {T : Type} (w : WeakId) (stateAlive : Bool) (s : Scene T) :
    Option (Option Id) :=
  if stateAlive then
    some ((s.slab.get w.index).map fun _ => { tag := w.tag, index := w.index })
  else none

/-! ### Spec-side collection algorithm (for the refinement claim) -/

/-- Phase-1 step of the algorithm as the spec words it: apply one drained
grab as `+1` to the count of the slot at the drained index (a vacant
index is the panic). -/
def applyGrabSpec {T : Type} (os : Option (Slab (Entry T))) (i : Nat) :
    Option (Slab (Entry T)) :=
  os.bind fun sl => (sl.get i).map fun e => sl.set i { e with refs := e.refs + 1 }

/-- Phase-2 step of the algorithm as the spec words it: apply one drained
release as `-1`; whenever the decrement brings the count to zero, remove
the slot immediately and append a `Drop(index)` event. -/
def applyReleaseSpec {T : Type} (st : Option (Slab (Entry T) × List Event)) (i : Nat) :
    Option (Slab (Entry T) × List Event) :=
  st.bind fun p => (p.1.get i).map fun e =>
    if e.refs - 1 = 0 then
      (Slab.remove (p.1.set i { e with refs := e.refs - 1 }) i, p.2 ++ [Event.drop i])
    else
      (p.1.set i { e with refs := e.refs - 1 }, p.2)

/-- The collection algorithm exactly as the spec states it: first the
grabs queue is drained completely (phase 1 folded over the whole queue),
and only then is the releases queue drained completely (phase 2); by
construction no release is applied before every pending grab has been
applied. -/
def garbageCollectSpec {T : Type} (s : Scene T) : Option (Scene T) :=
  (s.grabs.foldl applyGrabSpec (some s.slab)).bind fun sl1 =>
    (s.releases.foldl applyReleaseSpec (some (sl1, s.events))).map fun p =>
      { s with slab := p.1, grabs := [], releases := [], events := p.2 }

/-! ### Concrete scenes for scenario evaluation -/

/-- A one-slot scene: a fresh scene with a single inserted payload at
index 0. -/
def c4Scene : Scene Unit := ((Scene.new Unit 0).insert ()).1

/-- The strong handle returned by that insert. -/
def c4Handle : Id := ((Scene.new Unit 0).insert ()).2

/-! ### Operation histories (trace semantics) -/

/-- One client operation on a scene and its handles, used to state the
whole-history claims.  `cloneOp i`/`dropOp i` clone respectively drop a
live strong handle whose index is `i`; `idOp i` is a `Scene::id(i)`
lookup; `collectOp` is a `garbage_collect` pass. -/
inductive Op where
  | insertOp
  | cloneOp (i : Nat)
  | dropOp (i : Nat)
  | idOp (i : Nat)
  | collectOp
deriving DecidableEq, Repr

/-- Instrumented system state.  `scene` evolves only through the embedded
source operations.  The remaining fields are ghost bookkeeping used to
state the claims: `handles` is the multiset (as a list) of indices of
currently live strong handles, and `g i`/`r i` count the grabs/releases
enqueued for index `i` since the slot currently at `i` was inserted. -/
structure Sys where
  scene : Scene Unit
  handles : List Nat
  g : Nat → Nat
  r : Nat → Nat

/-- The initial system: a fresh scene, no handles, zero ghost counters. -/
def initSys : Sys :=
  { scene := Scene.new Unit 0, handles := [], g := fun _ => 0, r := fun _ => 0 }

/-- One step of the operation history.  The scene component moves by the
embedded source operation; a `cloneOp`/`dropOp` on an index with no live
handle is rejected (`none`), since only a live handle can be cloned or
dropped; a failing `garbage_collect` (a Rust panic) is `none`. -/
def step (sys : Sys) : Op → Option Sys
  | Op.insertOp =>
    let p := sys.scene.insert ()
    some { scene := p.1,
           handles := p.2.index :: sys.handles,
           g := fun j => if j = p.2.index then 0 else sys.g j,
           r := fun j => if j = p.2.index then 0 else sys.r j }
  | Op.cloneOp i =>
    if i ∈ sys.handles then
      some { scene := (Id.clone sys.scene { tag := sys.scene.tag, index := i }).1,
             handles := i :: sys.handles,
             g := fun j => if j = i then sys.g j + 1 else sys.g j,
             r := sys.r }
    else none
  | Op.dropOp i =>
    if i ∈ sys.handles then
      some { scene := Id.dropHandle sys.scene { tag := sys.scene.tag, index := i },
             handles := sys.handles.erase i,
             g := sys.g,
             r := fun j => if j = i then sys.r j + 1 else sys.r j }
    else none
  | Op.idOp i =>
    match (sys.scene.id i).2 with
    | some _ => some { scene := (sys.scene.id i).1,
                       handles := i :: sys.handles,
                       g := fun j => if j = i then sys.g j + 1 else sys.g j,
                       r := sys.r }
    | none => some { sys with scene := (sys.scene.id i).1 }
  | Op.collectOp =>
    (sys.scene.garbage_collect).map fun s' => { sys with scene := s' }

/-- Run a whole operation history from the initial system. -/
def run (ops : List Op) : Option Sys := ops.foldlM step initSys

/-- Count of `New(i)` events in a buffer. -/
def newCount (i : Nat) (evs : List Event) : Nat := evs.count (Event.new i)

/-- Count of `Drop(i)` events in a buffer. -/
def dropCount (i : Nat) (evs : List Event) : Nat := evs.count (Event.drop i)

/-- The per-slot accounting invariant.  For a live slot `i`: its count is
at least 1; count plus pending grabs balances live handles plus pending
releases; and live handles plus releases-since-insert balance `1` (the
insert) plus grabs-since-insert.  For a vacant index: no live handle and
no pending queue entry mentions it. -/
def CountInv (sys : Sys) : Prop :=
  ∀ i : Nat,
    (∀ e, sys.scene.slab.get i = some e →
      1 ≤ e.refs ∧
      e.refs + sys.scene.grabs.count i = sys.handles.count i + sys.scene.releases.count i ∧
      sys.handles.count i + sys.r i = 1 + sys.g i) ∧
    (sys.scene.slab.get i = none →
      sys.handles.count i = 0 ∧ sys.scene.grabs.count i = 0 ∧
      sys.scene.releases.count i = 0)

/-- Event/slab balance: index `i` has seen exactly one more `New(i)` than
`Drop(i)` events while its slot is live, and equally many when vacant. -/
def EventBalance {T : Type} (sl : Slab (Entry T)) (evs : List Event) : Prop :=
  ∀ i, newCount i evs = dropCount i evs + (if (sl.get i).isSome then 1 else 0)

/-- Prefix discipline of the event buffer: in every prefix, `Drop(i)`
events never outnumber `New(i)` events, and `New(i)` events never exceed
`Drop(i)` events by more than one. -/
def PrefixAlt (evs : List Event) : Prop :=
  ∀ (i : Nat) (l₁ l₂ : List Event), evs = l₁ ++ l₂ →
    dropCount i l₁ ≤ newCount i l₁ ∧ newCount i l₁ ≤ dropCount i l₁ + 1

/-- The part of the invariant that ties the event buffer to the slab:
balance plus prefix discipline. -/
def EvSt {T : Type} (sl : Slab (Entry T)) (evs : List Event) : Prop :=
  EventBalance sl evs ∧ PrefixAlt evs

/-- The combined reachability invariant of the trace semantics. -/
def CombInv (sys : Sys) : Prop :=
  SlabInv sys.scene.slab ∧ CountInv sys ∧ EvSt sys.scene.slab sys.scene.events

/-- Relation between the slabs of the plain run and of the run carrying
one extra (not yet drained) grab for index `i`: every other slot agrees,
and at `i` the primed slab is one count ahead — or still holds the slot
at count 1 when the plain run has already removed it. -/
def RelAt {T : Type} (i : Nat) (sl sl' : Slab (Entry T)) : Prop :=
  (∀ j, j ≠ i → sl'.get j = sl.get j) ∧
  (match sl.get i, sl'.get i with
   | some e, some e' => 1 ≤ e.refs ∧ e'.data = e.data ∧ e'.refs = e.refs + 1
   | none, some e' => e'.refs = 1
   | _, _ => False)

/-- Operation history for the C1 evaluation scenario: one insert, one
clone of its handle, one drop of a handle. -/
def c1Ops : List Op := [Op.insertOp, Op.cloneOp 0, Op.dropOp 0]

/-- The system reached by `c1Ops`. -/
def c1Pre : Sys := (run c1Ops).getD initSys

/-- The system after one further collection pass. -/
def c1Post : Sys := (step c1Pre Op.collectOp).getD initSys

/-- Operation history for the C3 evaluation scenario: insert at index 0,
drop the only handle, collect (slot 0 removed, `Drop(0)` emitted), insert
again (index 0 reused). -/
def c3Ops : List Op := [Op.insertOp, Op.dropOp 0, Op.collectOp, Op.insertOp]

/-- The system reached by `c3Ops`. -/
def c3Sys : Sys := (run c3Ops).getD initSys

/-! ### Basic list and slab lemmas -/

theorem listGetSetSelf {A : Type} {l : List A} {n : Nat} (h : n < l.length) (a : A) :
    (l.set n a)[n]? = some a := by
  simp [List.getElem?_set_self', List.getElem?_eq_getElem h]

theorem listGetAppendLeft {A : Type} {l₁ : List A} (l₂ : List A) {n : Nat}
    (h : n < l₁.length) : (l₁ ++ l₂)[n]? = l₁[n]? := by
  rw [List.getElem?_append, if_pos h]

theorem Slab.get_set_self {A : Type} {sl : Slab A} {i : Nat} {e : A} (a : A)
    (h : sl.get i = some e) : (sl.set i a).get i = some a := by
  have hlt : i < sl.entries.length := by
    rcases hg : sl.entries[i]? with _ | o
    · simp [Slab.get, hg] at h
    · exact (List.getElem?_eq_some.1 hg).1
  simp [Slab.get, Slab.set, listGetSetSelf hlt]

theorem Slab.get_set_ne {A : Type} (sl : Slab A) (a : A) {i j : Nat}
    (h : j ≠ i) : (sl.set i a).get j = sl.get j := by
  simp [Slab.get, Slab.set, List.getElem?_set_ne (Ne.symm h)]

theorem Slab.get_remove_self {A : Type} (sl : Slab A) (i : Nat) :
    (Slab.remove sl i).get i = none := by
  unfold Slab.remove
  rcases hg : sl.entries[i]? with _ | o
  · simp [Slab.get, hg]
  · rcases o with _ | a
    · simp [Slab.get, hg]
    · have hlt : i < sl.entries.length := (List.getElem?_eq_some.1 hg).1
      simp [Slab.get, listGetSetSelf hlt]

theorem Slab.get_remove_ne {A : Type} (sl : Slab A) {i j : Nat}
    (h : j ≠ i) : (Slab.remove sl i).get j = sl.get j := by
  unfold Slab.remove
  rcases hg : sl.entries[i]? with _ | o
  · rfl
  · rcases o with _ | a
    · rfl
    · simp [Slab.get, List.getElem?_set_ne (Ne.symm h)]

theorem SlabInv.set {A : Type} {sl : Slab A} {i : Nat} {e : A} (a : A)
    (hinv : SlabInv sl) (h : sl.get i = some e) : SlabInv (sl.set i a) := by
  refine ⟨hinv.1, fun j hj => ?_⟩
  have hne : j ≠ i := by
    intro hji; subst hji
    have := hinv.2 j hj
    simp [Slab.get, this] at h
  show (sl.entries.set i (some a))[j]? = some none
  rw [List.getElem?_set_ne (Ne.symm hne)]
  exact hinv.2 j hj

theorem SlabInv.remove {A : Type} {sl : Slab A} (i : Nat)
    (hinv : SlabInv sl) : SlabInv (Slab.remove sl i) := by
  unfold Slab.remove
  rcases hg : sl.entries[i]? with _ | o
  · exact hinv
  · rcases o with _ | a
    · exact hinv
    · have hlt : i < sl.entries.length := (List.getElem?_eq_some.1 hg).1
      have hnotin : i ∉ sl.free := by
        intro hin
        have hv := hinv.2 i hin
        rw [hg] at hv
        simp at hv
      refine ⟨List.nodup_cons.2 ⟨hnotin, hinv.1⟩, fun j hj => ?_⟩
      rcases List.mem_cons.1 hj with hji | hj'
      · subst hji
        exact listGetSetSelf hlt none
      · have hne : j ≠ i := fun hji => hnotin (hji ▸ hj')
        show (sl.entries.set i none)[j]? = some none
        rw [List.getElem?_set_ne (Ne.symm hne)]
        exact hinv.2 j hj'

theorem Slab.insert_fresh {A : Type} {sl : Slab A} (a : A)
    (hinv : SlabInv sl) : sl.get (sl.insert a).2 = none := by
  unfold Slab.insert
  rcases hf : sl.free with _ | ⟨i, rest⟩
  · simp [Slab.get, List.getElem?_eq_none (le_refl sl.entries.length)]
  · have hv := hinv.2 i (by rw [hf]; exact List.mem_cons_self i rest)
    simp [Slab.get, hv]

theorem Slab.get_insert_self {A : Type} {sl : Slab A} (a : A)
    (hinv : SlabInv sl) : (sl.insert a).1.get (sl.insert a).2 = some a := by
  unfold Slab.insert
  rcases hf : sl.free with _ | ⟨i, rest⟩
  · simp [Slab.get, List.getElem?_concat_length]
  · have hv := hinv.2 i (by rw [hf]; exact List.mem_cons_self i rest)
    have hlt : i < sl.entries.length := (List.getElem?_eq_some.1 hv).1
    simp [Slab.get, listGetSetSelf hlt]

theorem Slab.get_insert_ne {A : Type} {sl : Slab A} (a : A) {j : Nat}
    (h : j ≠ (sl.insert a).2) : (sl.insert a).1.get j = sl.get j := by
  unfold Slab.insert at h ⊢
  rcases hf : sl.free with _ | ⟨i, rest⟩
  · rw [hf] at h
    have hne : j ≠ sl.entries.length := by simpa using h
    rcases Nat.lt_or_ge j sl.entries.length with hlt | hge
    · simp [Slab.get, listGetAppendLeft [some a] hlt]
    · have hgt : sl.entries.length < j := lt_of_le_of_ne hge (Ne.symm hne)
      have h1 : (sl.entries ++ [some a]).length ≤ j := by
        simpa [List.length_append] using hgt
      simp [Slab.get, List.getElem?_eq_none h1, List.getElem?_eq_none (le_of_lt hgt)]
  · rw [hf] at h
    have hne : j ≠ i := by simpa using h
    simp [Slab.get, List.getElem?_set_ne (Ne.symm hne)]

theorem SlabInv.insert {A : Type} {sl : Slab A} (a : A)
    (hinv : SlabInv sl) : SlabInv (sl.insert a).1 := by
  unfold Slab.insert
  rcases hf : sl.free with _ | ⟨i, rest⟩
  · exact ⟨List.nodup_nil, fun j hj => absurd hj (List.not_mem_nil j)⟩
  · have hnodup := hinv.1; rw [hf] at hnodup
    refine ⟨(List.nodup_cons.1 hnodup).2, fun j hj => ?_⟩
    have hji : j ≠ i := fun he => (List.nodup_cons.1 hnodup).1 (he ▸ hj)
    have hjmem : j ∈ sl.free := by rw [hf]; exact List.mem_cons_of_mem i hj
    show (sl.entries.set i (some a))[j]? = some none
    rw [List.getElem?_set_ne (Ne.symm hji)]
    exact hinv.2 j hjmem

/-! ### C10: collecting with empty queues is a no-op -/

/-- **C10.** Calling `garbage_collect` when both the grabs queue and the
releases queue are empty changes nothing: the slab (every slot and count)
and the event buffer are exactly as before the call, and the call does
not panic. -/
theorem collect_empty_queues_noop {T : Type} (s : Scene T)
    (hg : s.grabs = []) (hr : s.releases = []) :
    s.garbage_collect = some s := by
  cases s with
  | mk tag slab grabs releases events =>
    simp only at hg hr
    subst hg; subst hr
    rfl

/-- Witness for C10 on a concrete scene. -/
theorem collect_empty_queues_noop_witness :
    (Scene.new Unit 0).garbage_collect = some (Scene.new Unit 0) :=
  collect_empty_queues_noop (Scene.new Unit 0) rfl rfl

/-! ### C7: `Scene::id` lookup contract -/

/-- **C7.** `Scene::id(index)` returns `none` and leaves the scene
untouched when no slot exists at `index`; when a slot exists it appends
exactly one grab for `index` to the grabs queue — slab, releases queue
and event buffer unchanged — and returns a strong handle carrying that
index and the scene's shared state. -/
theorem id_lookup_spec {T : Type} (s : Scene T) (index : Nat) :
    Scene.id s index =
      match s.slab.get index with
      | some _ => ({ s with grabs := s.grabs ++ [index] },
                   some { tag := s.tag, index := index })
      | none => (s, none) := by
  unfold Scene.id
  rcases h : s.slab.get index with _ | e <;> simp

/-! ### C6: `get`/`get_mut` reject handles from a different scene -/

/-- **C6.** `Scene::get` and `Scene::get_mut` assert that the handle's
shared state is pointer-identical to the scene's; a handle issued by a
different scene (different state tag) makes both calls panic (`none`) —
no view of wrong data is ever returned. -/
theorem get_rejects_foreign_handle {T : Type} (s : Scene T) (h : Id)
    (hne : h.tag ≠ s.tag) :
    Scene.get s h = none ∧ Scene.get_mut s h = none := by
  constructor <;> simp [Scene.get, Scene.get_mut, hne]

/-- Witness for C6: a handle tagged `1` against a scene tagged `0`. -/
theorem get_rejects_foreign_handle_witness :
    Scene.get (Scene.new Unit 0) { tag := 1, index := 0 } = none ∧
    Scene.get_mut (Scene.new Unit 0) { tag := 1, index := 0 } = none :=
  get_rejects_foreign_handle (Scene.new Unit 0) { tag := 1, index := 0 } (by decide)

/-! ### C9: downgrade/upgrade round trip -/

/-- **C9.** For a strong handle `h` whose slot exists in the scene's
table, `h.downgrade().upgrade(scene)` returns `some` handle equal to `h`
under the handle equality relation (same shared state, same index); in
particular downgrade preserves the index.  The shared-state upgrade
succeeds (`stateAlive = true`) because `h` itself holds a strong `Arc`
reference to the state. -/
theorem downgrade_upgrade_roundtrip {T : Type} (s : Scene T) (h : Id) (e : Entry T)
    (hmem : s.slab.get h.index = some e) :
    WeakId.upgrade (Id.downgrade h) true s =
      some (some { tag := h.tag, index := h.index }) ∧
    Id.eq { tag := h.tag, index := h.index } h = true := by
  refine ⟨?_, ?_⟩
  · simp [WeakId.upgrade, Id.downgrade, hmem]
  · simp [Id.eq]

/-- Witness for C9 on a freshly inserted slot. -/
theorem downgrade_upgrade_roundtrip_witness :
    WeakId.upgrade (Id.downgrade ((Scene.new Unit 0).insert ()).2) true
        ((Scene.new Unit 0).insert ()).1 =
      some (some { tag := (((Scene.new Unit 0).insert ()).2).tag,
                   index := (((Scene.new Unit 0).insert ()).2).index }) ∧
    Id.eq { tag := (((Scene.new Unit 0).insert ()).2).tag,
            index := (((Scene.new Unit 0).insert ()).2).index }
        (((Scene.new Unit 0).insert ()).2) = true :=
  downgrade_upgrade_roundtrip ((Scene.new Unit 0).insert ()).1
    ((Scene.new Unit 0).insert ()).2 { data := (), refs := 1 } rfl

/-! ### C8: `Scene::insert` contract -/

/-- **C8.** `Scene::insert(payload)` adds a new slot (the allocated index
was vacant before, and no other slot is disturbed) whose reference count
is exactly 1, appends exactly one `New(index)` event for the allocated
index to the event buffer, leaves both queues untouched, and returns a
strong handle whose index is that slot's index and whose shared state is
the scene's.  The hypothesis is the free-list well-formedness the `slab`
crate maintains. -/
theorem insert_spec {T : Type} (s : Scene T) (t : T) (hinv : SlabInv s.slab) :
    s.slab.get (s.insert t).2.index = none ∧
    (s.insert t).1.slab.get (s.insert t).2.index = some { data := t, refs := 1 } ∧
    (∀ j, j ≠ (s.insert t).2.index → (s.insert t).1.slab.get j = s.slab.get j) ∧
    (s.insert t).1.events = s.events ++ [Event.new (s.insert t).2.index] ∧
    (s.insert t).1.grabs = s.grabs ∧
    (s.insert t).1.releases = s.releases ∧
    (s.insert t).2.tag = s.tag := by
  refine ⟨?_, ?_, ?_, rfl, rfl, rfl, rfl⟩
  · exact Slab.insert_fresh { data := t, refs := 1 } hinv
  · exact Slab.get_insert_self { data := t, refs := 1 } hinv
  · intro j hj
    exact Slab.get_insert_ne (A := Entry T) { data := t, refs := 1 } hj

/-- Witness for C8: inserting into a fresh empty scene. -/
theorem insert_spec_witness :
    (Scene.new Unit 0).slab.get (((Scene.new Unit 0).insert ()).2.index) = none ∧
    ((Scene.new Unit 0).insert ()).1.slab.get (((Scene.new Unit 0).insert ()).2.index) =
      some { data := (), refs := 1 } ∧
    (∀ j, j ≠ (((Scene.new Unit 0).insert ()).2.index) →
      ((Scene.new Unit 0).insert ()).1.slab.get j = (Scene.new Unit 0).slab.get j) ∧
    ((Scene.new Unit 0).insert ()).1.events =
      (Scene.new Unit 0).events ++ [Event.new (((Scene.new Unit 0).insert ()).2.index)] ∧
    ((Scene.new Unit 0).insert ()).1.grabs = (Scene.new Unit 0).grabs ∧
    ((Scene.new Unit 0).insert ()).1.releases = (Scene.new Unit 0).releases ∧
    (((Scene.new Unit 0).insert ()).2).tag = (Scene.new Unit 0).tag :=
  insert_spec (Scene.new Unit 0) ()
    ⟨List.nodup_nil, fun i hi => absurd hi (List.not_mem_nil i)⟩

/-! ### C2: `garbage_collect` is exactly the two-phase algorithm -/

theorem foldl_applyGrabSpec_none {T : Type} (q : List Nat) :
    q.foldl (applyGrabSpec (T := T)) none = none := by
  induction q with
  | nil => rfl
  | cons i q ih => simpa [applyGrabSpec] using ih

theorem foldl_applyReleaseSpec_none {T : Type} (q : List Nat) :
    q.foldl (applyReleaseSpec (T := T)) none = none := by
  induction q with
  | nil => rfl
  | cons i q ih => simpa [applyReleaseSpec] using ih

theorem drainGrabs_eq_foldl {T : Type} (q : List Nat) (sl : Slab (Entry T)) :
    drainGrabs sl q = q.foldl applyGrabSpec (some sl) := by
  induction q generalizing sl with
  | nil => rfl
  | cons i q ih =>
    rcases h : sl.get i with _ | e
    · simp [drainGrabs, h, applyGrabSpec, foldl_applyGrabSpec_none]
    · simp [drainGrabs, h, applyGrabSpec, Entry.grab, ih]

theorem drainReleases_eq_foldl {T : Type} (q : List Nat) (sl : Slab (Entry T))
    (evs : List Event) :
    drainReleases sl q evs = q.foldl applyReleaseSpec (some (sl, evs)) := by
  induction q generalizing sl evs with
  | nil => rfl
  | cons i q ih =>
    rcases h : sl.get i with _ | e
    · simp [drainReleases, h, applyReleaseSpec, foldl_applyReleaseSpec_none]
    · rcases hz : e.refs - 1 == 0 with _ | _
      · have hz' : ¬ (e.refs - 1 = 0) := by simpa using hz
        simp [drainReleases, h, Entry.release, hz, applyReleaseSpec, hz', ih]
      · have hz' : e.refs - 1 = 0 := by simpa using hz
        simp [drainReleases, h, Entry.release, hz, applyReleaseSpec, hz', ih]

/-- **C2.** `garbage_collect` follows exactly the two-phase algorithm of
the spec: it first drains the grabs queue completely (each drained index
gets `+1`), only then drains the releases queue completely (each drained
index gets `-1`, with immediate removal and a `Drop(index)` event when a
count reaches zero); the phase split of `garbageCollectSpec` shows no
release is applied before every pending grab has been applied. -/
theorem garbage_collect_eq_two_phase_spec {T : Type} (s : Scene T) :
    s.garbage_collect = garbageCollectSpec s := by
  unfold Scene.garbage_collect garbageCollectSpec
  rw [drainGrabs_eq_foldl]
  rcases h : s.grabs.foldl applyGrabSpec (some s.slab) with _ | sl1
  · rfl
  · simp [drainReleases_eq_foldl]

/-! ### C4: the upgrade path pushes no grab (code bug) -/

/-- **C4 (failing input).** `WeakId::upgrade` succeeds (the slot exists)
and returns a handle equal to the original, but — unlike `Scene::id` —
it pushes no grab: both queues of the scene stay empty.  Consequently,
after the original handle and the upgraded handle are both dropped, the
next `garbage_collect` panics: the first drained release brings the
count from 1 to 0 and removes the slot, and the second release is
drained against a now-vacant slot (`unwrap` of `None`).  The claim's
grab-on-success contract is therefore violated by the code. -/
theorem upgrade_missing_grab_panics :
    WeakId.upgrade (Id.downgrade c4Handle) true c4Scene = some (some c4Handle) ∧
    (c4Scene.grabs = [] ∧ c4Scene.releases = []) ∧
    Scene.garbage_collect (Id.dropHandle (Id.dropHandle c4Scene c4Handle) c4Handle) =
      none :=
  ⟨rfl, ⟨rfl, rfl⟩, rfl⟩

/-! ### Drain-loop lemmas -/

theorem drainGrabs_shape {T : Type} (q : List Nat) :
    ∀ (sl sl' : Slab (Entry T)), drainGrabs sl q = some sl' →
      ∀ i, sl'.get i = (sl.get i).map fun e => { e with refs := e.refs + q.count i } := by
  induction q with
  | nil =>
    intro sl sl' h i
    simp only [drainGrabs, Option.some_inj] at h
    subst h
    rcases hg : sl.get i with _ | e <;> simp [hg]
  | cons j q ih =>
    intro sl sl' h i
    unfold drainGrabs at h
    rcases hj : sl.get j with _ | e
    · rw [hj] at h; cases h
    · rw [hj] at h
      have hchar := ih _ _ h i
      by_cases hij : i = j
      · subst hij
        rw [hchar, Slab.get_set_self _ hj]
        simp only [hj, Entry.grab, List.count_cons_self, Option.map_some']
        congr 1
        · congr 1
          omega
      · rw [hchar, Slab.get_set_ne _ _ hij, List.count_cons_of_ne hij]

theorem drainGrabs_append {T : Type} (q₁ q₂ : List Nat) :
    ∀ sl : Slab (Entry T),
      drainGrabs sl (q₁ ++ q₂) = (drainGrabs sl q₁).bind fun sl' => drainGrabs sl' q₂ := by
  induction q₁ with
  | nil => intro sl; rfl
  | cons j q ih =>
    intro sl
    rcases hj : sl.get j with _ | e
    · simp [List.cons_append, drainGrabs, hj]
    · simp only [List.cons_append, drainGrabs, hj]
      exact ih _

theorem drainGrabs_isSome {T : Type} (q : List Nat) :
    ∀ sl : Slab (Entry T), (∀ j ∈ q, (sl.get j).isSome) → (drainGrabs sl q).isSome := by
  induction q with
  | nil => intro sl _; rfl
  | cons j q ih =>
    intro sl hall
    have hj := hall j (List.mem_cons_self j q)
    rcases hjg : sl.get j with _ | e
    · rw [hjg] at hj; cases hj
    · show (drainGrabs sl (j :: q)).isSome
      unfold drainGrabs
      rw [hjg]
      refine ih _ (fun k hk => ?_)
      by_cases hkj : k = j
      · subst hkj
        rw [Slab.get_set_self _ hjg]; rfl
      · rw [Slab.get_set_ne _ _ hkj]
        exact hall k (List.mem_cons_of_mem j hk)

theorem drainGrabs_slabInv {T : Type} (q : List Nat) :
    ∀ sl sl' : Slab (Entry T), SlabInv sl → drainGrabs sl q = some sl' → SlabInv sl' := by
  induction q with
  | nil =>
    intro sl sl' hinv h
    simp only [drainGrabs, Option.some_inj] at h
    subst h; exact hinv
  | cons j q ih =>
    intro sl sl' hinv h
    unfold drainGrabs at h
    rcases hj : sl.get j with _ | e
    · rw [hj] at h; cases h
    · rw [hj] at h
      exact ih _ _ (SlabInv.set _ hinv hj) h

theorem drainReleases_append {T : Type} (q₁ q₂ : List Nat) :
    ∀ (sl : Slab (Entry T)) (evs : List Event),
      drainReleases sl (q₁ ++ q₂) evs =
        (drainReleases sl q₁ evs).bind fun p => drainReleases p.1 q₂ p.2 := by
  induction q₁ with
  | nil => intro sl evs; rfl
  | cons j q ih =>
    intro sl evs
    rcases hj : sl.get j with _ | e
    · simp [List.cons_append, drainReleases, hj]
    · by_cases hz : (e.release).2 = true
      · simp only [List.cons_append, drainReleases, hj, hz, if_true]
        exact ih _ _
      · simp only [List.cons_append, drainReleases, hj, hz, if_false]
        exact ih _ _

theorem drainReleases_slabInv {T : Type} (q : List Nat) :
    ∀ (sl : Slab (Entry T)) evs sl' evs', SlabInv sl →
      drainReleases sl q evs = some (sl', evs') → SlabInv sl' := by
  induction q with
  | nil =>
    intro sl evs sl' evs' hinv h
    simp only [drainReleases, Option.some_inj, Prod.mk.injEq] at h
    rw [← h.1]; exact hinv
  | cons j q ih =>
    intro sl evs sl' evs' hinv h
    rcases hj : sl.get j with _ | e
    · simp only [drainReleases, hj] at h
      exact Option.noConfusion h
    · by_cases hz : (e.release).2 = true
      · simp only [drainReleases, hj, hz, if_true] at h
        exact ih _ _ _ _ (SlabInv.remove j (SlabInv.set _ hinv hj)) h
      · simp only [drainReleases, hj, hz, if_false] at h
        exact ih _ _ _ _ (SlabInv.set _ hinv hj) h

theorem drainReleases_none_mono {T : Type} (q : List Nat) :
    ∀ (sl : Slab (Entry T)) evs sl' evs' i,
      drainReleases sl q evs = some (sl', evs') → sl.get i = none → sl'.get i = none := by
  induction q with
  | nil =>
    intro sl evs sl' evs' i h hi
    simp only [drainReleases, Option.some_inj, Prod.mk.injEq] at h
    rw [← h.1]; exact hi
  | cons j q ih =>
    intro sl evs sl' evs' i h hi
    rcases hj : sl.get j with _ | e
    · simp only [drainReleases, hj] at h
      exact Option.noConfusion h
    · have hij : i ≠ j := by
        intro he; rw [he, hj] at hi; cases hi
      by_cases hz : (e.release).2 = true
      · simp only [drainReleases, hj, hz, if_true] at h
        refine ih _ _ _ _ i h ?_
        rw [Slab.get_remove_ne _ hij, Slab.get_set_ne _ _ hij]; exact hi
      · simp only [drainReleases, hj, hz, if_false] at h
        refine ih _ _ _ _ i h ?_
        rw [Slab.get_set_ne _ _ hij]; exact hi

/-- Draining the same release queue from two slabs related by one extra
pending grab at `i` succeeds on the primed side whenever it succeeds on
the plain side, and re-establishes the relation. -/
theorem drainReleases_rel {T : Type} (i : Nat) (q : List Nat) :
    ∀ (sl sl' : Slab (Entry T)) (evs evs' : List Event) (slF : Slab (Entry T))
      (evsF : List Event),
      RelAt i sl sl' → drainReleases sl q evs = some (slF, evsF) →
      ∃ sl'F evs'F, drainReleases sl' q evs' = some (sl'F, evs'F) ∧ RelAt i slF sl'F := by
  induction q with
  | nil =>
    intro sl sl' evs evs' slF evsF hrel h
    simp only [drainReleases, Option.some_inj, Prod.mk.injEq] at h
    exact ⟨sl', evs', rfl, h.1 ▸ hrel⟩
  | cons j q ih =>
    intro sl sl' evs evs' slF evsF hrel h
    rcases hj : sl.get j with _ | e
    · simp only [drainReleases, hj] at h
      exact Option.noConfusion h
    · by_cases hij : j = i
      · subst hij
        have hm := hrel.2
        rw [hj] at hm
        rcases hi' : sl'.get j with _ | e'
        · rw [hi'] at hm; exact hm.elim
        · rw [hi'] at hm
          obtain ⟨hpos, hdata, herefs⟩ := hm
          by_cases hz : (e.release).2 = true
          · -- the plain run removes slot j; the primed one keeps it at count 1
            have hz' : e.refs - 1 = 0 := by
              simpa [Entry.release] using hz
            have hone : e.refs = 1 := by omega
            simp only [drainReleases, hj, hz, if_true] at h
            have hz2 : ((e'.release).2 = true) = False := by
              simp [Entry.release, herefs, hone]
            have hrel2 : RelAt j (Slab.remove (sl.set j (e.release).1) j)
                (sl'.set j (e'.release).1) := by
              constructor
              · intro k hk
                rw [Slab.get_remove_ne _ hk, Slab.get_set_ne _ _ hk,
                  Slab.get_set_ne _ _ hk]
                exact hrel.1 k hk
              · rw [Slab.get_remove_self, Slab.get_set_self _ hi']
                show ((e'.release).1).refs = 1
                simp [Entry.release, herefs, hone]
            obtain ⟨sl'F, evs'F, hrun, hrelF⟩ := ih _ _ (evs ++ [Event.drop j]) evs' _ _ hrel2 h
            refine ⟨sl'F, evs'F, ?_, hrelF⟩
            simp only [drainReleases, hi', hz2, if_false]
            exact hrun
          · -- neither run removes slot j
            have hz' : ¬ (e.refs - 1 = 0) := by
              simpa [Entry.release] using hz
            simp only [drainReleases, hj, hz, if_false] at h
            have hz2 : ((e'.release).2 = true) = False := by
              simp [Entry.release, herefs]
              omega
            have hrel2 : RelAt j (sl.set j (e.release).1) (sl'.set j (e'.release).1) := by
              constructor
              · intro k hk
                rw [Slab.get_set_ne _ _ hk, Slab.get_set_ne _ _ hk]
                exact hrel.1 k hk
              · rw [Slab.get_set_self _ hj, Slab.get_set_self _ hi']
                refine ⟨?_, ?_, ?_⟩
                · show 1 ≤ ((e.release).1).refs
                  simp [Entry.release]; omega
                · show ((e'.release).1).data = ((e.release).1).data
                  simpa [Entry.release] using hdata
                · show ((e'.release).1).refs = ((e.release).1).refs + 1
                  simp [Entry.release, herefs]
                  omega
            obtain ⟨sl'F, evs'F, hrun, hrelF⟩ := ih _ _ evs evs' _ _ hrel2 h
            refine ⟨sl'F, evs'F, ?_, hrelF⟩
            simp only [drainReleases, hi', hz2, if_false]
            exact hrun
      · -- j ≠ i: both runs see the same entry and take the same branch
        have hj' : sl'.get j = some e := by rw [hrel.1 j hij, hj]
        by_cases hz : (e.release).2 = true
        · simp only [drainReleases, hj, hz, if_true] at h
          have hrel2 : RelAt i (Slab.remove (sl.set j (e.release).1) j)
              (Slab.remove (sl'.set j (e.release).1) j) := by
            constructor
            · intro k hk
              by_cases hkj : k = j
              · subst hkj
                rw [Slab.get_remove_self, Slab.get_remove_self]
              · rw [Slab.get_remove_ne _ hkj, Slab.get_remove_ne _ hkj,
                  Slab.get_set_ne _ _ hkj, Slab.get_set_ne _ _ hkj]
                exact hrel.1 k hk
            · have hine : i ≠ j := fun hee => hij hee.symm
              rw [Slab.get_remove_ne _ hine, Slab.get_remove_ne _ hine,
                Slab.get_set_ne _ _ hine, Slab.get_set_ne _ _ hine]
              exact hrel.2
          obtain ⟨sl'F, evs'F, hrun, hrelF⟩ := ih _ _ (evs ++ [Event.drop j]) (evs' ++ [Event.drop j]) _ _ hrel2 h
          refine ⟨sl'F, evs'F, ?_, hrelF⟩
          simp only [drainReleases, hj', hz, if_true]
          exact hrun
        · simp only [drainReleases, hj, hz, if_false] at h
          have hrel2 : RelAt i (sl.set j (e.release).1) (sl'.set j (e.release).1) := by
            constructor
            · intro k hk
              by_cases hkj : k = j
              · subst hkj
                rw [Slab.get_set_self _ hj, Slab.get_set_self _ hj']
              · rw [Slab.get_set_ne _ _ hkj, Slab.get_set_ne _ _ hkj]
                exact hrel.1 k hk
            · have hine : i ≠ j := fun hee => hij hee.symm
              rw [Slab.get_set_ne _ _ hine, Slab.get_set_ne _ _ hine]
              exact hrel.2
          obtain ⟨sl'F, evs'F, hrun, hrelF⟩ := ih _ _ evs evs' _ _ hrel2 h
          refine ⟨sl'F, evs'F, ?_, hrelF⟩
          simp only [drainReleases, hj', hz, if_false]
          exact hrun

/-! ### C5: a clone/drop pair within one pass cancels out -/

/-- **C5.** For a live slot (count at least 1, the spec's invariant for
slots present in the table), cloning a strong handle to it and then
dropping the clone, with no `garbage_collect` between the clone and the
drop, leaves the slot after the next `garbage_collect` exactly as it
would have been without the clone/drop pair: the collection still
succeeds, the slot's count is the same whenever it is present, and the
pair does not cause the slot's removal in that pass (it is removed if
and only if it would have been removed anyway). -/
theorem clone_drop_cancel {T : Type} (s : Scene T) (i : Nat) (e : Entry T)
    (hlive : s.slab.get i = some e) (hrefs : 1 ≤ e.refs) (t : Scene T)
    (hgc : s.garbage_collect = some t) :
    ∃ t', (Id.dropHandle (Id.clone s { tag := s.tag, index := i }).1
             (Id.clone s { tag := s.tag, index := i }).2).garbage_collect = some t' ∧
      (t'.slab.get i).map Entry.refs = (t.slab.get i).map Entry.refs ∧
      (t'.slab.get i = none ↔ t.slab.get i = none) := by
  unfold Scene.garbage_collect at hgc
  rcases hG : drainGrabs s.slab s.grabs with _ | sl₂
  · rw [hG] at hgc; exact Option.noConfusion hgc
  rw [hG, Option.some_bind] at hgc
  rcases hR : drainReleases sl₂ s.releases s.events with _ | p
  · rw [hR] at hgc; exact Option.noConfusion hgc
  rw [hR, Option.map_some'] at hgc
  have ht := (Option.some_inj.1 hgc).symm
  have htslab : t.slab = p.1 := by rw [ht]
  have h₂ : sl₂.get i = some { data := e.data, refs := e.refs + s.grabs.count i } := by
    rw [drainGrabs_shape s.grabs _ _ hG i, hlive, Option.map_some']
  have hstep2 : drainGrabs sl₂ [i] =
      some (sl₂.set i (Entry.grab { data := e.data, refs := e.refs + s.grabs.count i })) := by
    simp only [drainGrabs, h₂]
  have hrel0 : RelAt i sl₂
      (sl₂.set i (Entry.grab { data := e.data, refs := e.refs + s.grabs.count i })) := by
    constructor
    · intro k hk
      rw [Slab.get_set_ne _ _ hk]
    · rw [h₂, Slab.get_set_self _ h₂]
      exact ⟨by simpa using Nat.le_add_right_of_le hrefs, rfl, rfl⟩
  obtain ⟨sl₃', evs₃', hrun, hrelF⟩ :=
    drainReleases_rel i s.releases _ _ s.events s.events p.1 p.2 hrel0 (by rw [hR])
  have hgcs' : (Id.dropHandle (Id.clone s { tag := s.tag, index := i }).1
      (Id.clone s { tag := s.tag, index := i }).2).garbage_collect =
      (drainReleases sl₃' [i] evs₃').map fun p2 =>
        ({ tag := s.tag, slab := p2.1, grabs := [], releases := [],
           events := p2.2 } : Scene T) := by
    show (drainGrabs s.slab (s.grabs ++ [i])).bind _ = _
    rw [drainGrabs_append, hG, Option.some_bind, hstep2, Option.some_bind]
    show (drainReleases _ (s.releases ++ [i]) s.events).map _ = _
    rw [drainReleases_append, hrun, Option.some_bind]
    rfl
  have hm := hrelF.2
  rcases hcase : p.1.get i with _ | eF
  · -- the plain pass removed the slot: the primed pass removes it on the
    -- extra queued release
    rw [hcase] at hm
    rcases hF' : sl₃'.get i with _ | e'
    · rw [hF'] at hm; exact hm.elim
    rw [hF'] at hm
    have hz2 : ((e'.release).2 = true) = True := by
      simp [Entry.release, hm]
    have hfin : drainReleases sl₃' [i] evs₃' =
        some (Slab.remove (sl₃'.set i (e'.release).1) i, evs₃' ++ [Event.drop i]) := by
      simp only [drainReleases, hF', hz2, if_true]
    refine ⟨_, by rw [hgcs', hfin, Option.map_some'], ?_, ?_⟩
    · show ((Slab.remove (sl₃'.set i (e'.release).1) i).get i).map Entry.refs = _
      rw [Slab.get_remove_self, htslab, hcase]
    · show (Slab.remove (sl₃'.set i (e'.release).1) i).get i = none ↔ _
      rw [Slab.get_remove_self, htslab, hcase]
  · -- the plain pass kept the slot: the primed pass ends one release
    -- behind, landing on the same count
    rw [hcase] at hm
    rcases hF' : sl₃'.get i with _ | e'
    · rw [hF'] at hm; exact hm.elim
    rw [hF'] at hm
    obtain ⟨hpos, hdata, hrefs'⟩ := hm
    have hz2 : ((e'.release).2 = true) = False := by
      simp [Entry.release, hrefs']
      omega
    have hfin : drainReleases sl₃' [i] evs₃' =
        some (sl₃'.set i (e'.release).1, evs₃') := by
      simp only [drainReleases, hF', hz2, if_false]
    refine ⟨_, by rw [hgcs', hfin, Option.map_some'], ?_, ?_⟩
    · show ((sl₃'.set i (e'.release).1).get i).map Entry.refs = _
      rw [Slab.get_set_self _ hF', htslab, hcase]
      show some ((e'.release).1).refs = some eF.refs
      simp [Entry.release, hrefs']
    · show (sl₃'.set i (e'.release).1).get i = none ↔ _
      rw [Slab.get_set_self _ hF', htslab, hcase]
      simp

/-- Witness for C5: a one-slot scene with empty queues; the plain pass is
the identity, and the clone/drop pair leaves index 0 at count 1. -/
theorem clone_drop_cancel_witness :
    ∃ t', (Id.dropHandle (Id.clone c4Scene { tag := c4Scene.tag, index := 0 }).1
             (Id.clone c4Scene { tag := c4Scene.tag, index := 0 }).2).garbage_collect
            = some t' ∧
      (t'.slab.get 0).map Entry.refs = (c4Scene.slab.get 0).map Entry.refs ∧
      (t'.slab.get 0 = none ↔ c4Scene.slab.get 0 = none) :=
  clone_drop_cancel c4Scene 0 { data := (), refs := 1 } rfl (Nat.le_refl 1) c4Scene rfl

/-! ### Event-count bookkeeping -/

theorem newCount_append (i : Nat) (evs₁ evs₂ : List Event) :
    newCount i (evs₁ ++ evs₂) = newCount i evs₁ + newCount i evs₂ := by
  simp [newCount, List.count_append]

theorem dropCount_append (i : Nat) (evs₁ evs₂ : List Event) :
    dropCount i (evs₁ ++ evs₂) = dropCount i evs₁ + dropCount i evs₂ := by
  simp [dropCount, List.count_append]

theorem newCount_single_new_self (i : Nat) : newCount i [Event.new i] = 1 := by
  simp [newCount]

theorem newCount_single_new_ne {i j : Nat} (h : i ≠ j) :
    newCount i [Event.new j] = 0 := by
  simp [newCount, List.count_cons, h.symm]

theorem newCount_single_drop (i j : Nat) : newCount i [Event.drop j] = 0 := by
  simp [newCount, List.count_cons]

theorem dropCount_single_drop_self (i : Nat) : dropCount i [Event.drop i] = 1 := by
  simp [dropCount]

theorem dropCount_single_drop_ne {i j : Nat} (h : i ≠ j) :
    dropCount i [Event.drop j] = 0 := by
  simp [dropCount, List.count_cons, h.symm]

theorem dropCount_single_new (i j : Nat) : dropCount i [Event.new j] = 0 := by
  simp [dropCount, List.count_cons]

theorem snoc_inj {α : Type} {xs ys : List α} {a b : α}
    (h : xs ++ [a] = ys ++ [b]) : xs = ys ∧ a = b := by
  obtain ⟨h1, h2⟩ := List.append_inj' h rfl
  exact ⟨h1, by injection h2⟩

theorem prefixAlt_append_new {evs : List Event} {j : Nat} (hp : PrefixAlt evs)
    (hbal : newCount j evs = dropCount j evs) :
    PrefixAlt (evs ++ [Event.new j]) := by
  intro i l₁ l₂ hsplit
  rcases List.eq_nil_or_concat l₂ with rfl | ⟨l₂', x, rfl⟩
  · rw [List.append_nil] at hsplit
    rw [← hsplit]
    by_cases hij : i = j
    · subst hij
      have hfull := hp i evs [] (List.append_nil evs).symm
      rw [newCount_append, dropCount_append, newCount_single_new_self,
        dropCount_single_new]
      omega
    · have hfull := hp i evs [] (List.append_nil evs).symm
      rw [newCount_append, dropCount_append, newCount_single_new_ne hij,
        dropCount_single_new]
      omega
  · rw [List.concat_eq_append, ← List.append_assoc] at hsplit
    obtain ⟨h1, _⟩ := snoc_inj hsplit
    exact hp i l₁ l₂' h1

theorem prefixAlt_append_drop {evs : List Event} {j : Nat} (hp : PrefixAlt evs)
    (hbal : newCount j evs = dropCount j evs + 1) :
    PrefixAlt (evs ++ [Event.drop j]) := by
  intro i l₁ l₂ hsplit
  rcases List.eq_nil_or_concat l₂ with rfl | ⟨l₂', x, rfl⟩
  · rw [List.append_nil] at hsplit
    rw [← hsplit]
    by_cases hij : i = j
    · subst hij
      rw [newCount_append, dropCount_append, newCount_single_drop,
        dropCount_single_drop_self]
      omega
    · have hfull := hp i evs [] (List.append_nil evs).symm
      rw [newCount_append, dropCount_append, newCount_single_drop,
        dropCount_single_drop_ne hij]
      omega
  · rw [List.concat_eq_append, ← List.append_assoc] at hsplit
    obtain ⟨h1, _⟩ := snoc_inj hsplit
    exact hp i l₁ l₂' h1

/-! ### The drain loops preserve the event invariant -/

theorem drainGrabs_evst {T : Type} (q : List Nat) (sl sl' : Slab (Entry T))
    (evs : List Event) (h : drainGrabs sl q = some sl') (hst : EvSt sl evs) :
    EvSt sl' evs := by
  refine ⟨fun i => ?_, hst.2⟩
  have hchar := drainGrabs_shape q sl sl' h i
  have hb := hst.1 i
  rcases hg : sl.get i with _ | e
  · rw [hg] at hb hchar
    rw [hchar]
    simpa using hb
  · rw [hg] at hb hchar
    rw [hchar]
    simpa using hb

theorem drainReleases_evst {T : Type} (q : List Nat) :
    ∀ (sl : Slab (Entry T)) (evs : List Event) sl' evs',
      drainReleases sl q evs = some (sl', evs') → EvSt sl evs → EvSt sl' evs' := by
  induction q with
  | nil =>
    intro sl evs sl' evs' h hst
    simp only [drainReleases, Option.some_inj, Prod.mk.injEq] at h
    rw [← h.1, ← h.2]; exact hst
  | cons k q ih =>
    intro sl evs sl' evs' h hst
    obtain ⟨hb, hp⟩ := hst
    rcases hk : sl.get k with _ | e
    · simp only [drainReleases, hk] at h
      exact Option.noConfusion h
    · have hbal : newCount k evs = dropCount k evs + 1 := by
        have := hb k
        rw [hk] at this
        simpa using this
      by_cases hz : (e.release).2 = true
      · simp only [drainReleases, hk, hz, if_true] at h
        refine ih _ _ _ _ h ⟨fun i => ?_, prefixAlt_append_drop hp hbal⟩
        by_cases hik : i = k
        · subst hik
          rw [Slab.get_remove_self, newCount_append, dropCount_append,
            newCount_single_drop, dropCount_single_drop_self]
          simp only [Option.isSome_none, Bool.false_eq_true, if_false]
          omega
        · rw [Slab.get_remove_ne _ hik, Slab.get_set_ne _ _ hik,
            newCount_append, dropCount_append, newCount_single_drop,
            dropCount_single_drop_ne hik]
          have := hb i
          omega
      · simp only [drainReleases, hk, hz, if_false] at h
        refine ih _ _ _ _ h ⟨fun i => ?_, hp⟩
        by_cases hik : i = k
        · subst hik
          rw [Slab.get_set_self _ hk]
          have := hb i
          rw [hk] at this
          simpa using this
        · rw [Slab.get_set_ne _ _ hik]
          exact hb i

/-- Success and slot-level characterization of the release drain.  If
every queued index holds an entry whose count is its number of queued
releases plus a residue `H`, the drain succeeds; a queued slot ends
removed exactly when its residue is zero and otherwise ends at count
`H`; unqueued slots are untouched. -/
theorem drainReleases_success_spec {T : Type} (q : List Nat) :
    ∀ (sl : Slab (Entry T)) (evs : List Event) (H : Nat → Nat),
      (∀ j ∈ q, ∃ e, sl.get j = some e ∧ e.refs = q.count j + H j) →
      ∃ sl' evs', drainReleases sl q evs = some (sl', evs') ∧
        (∀ j ∈ q, (H j = 0 → sl'.get j = none) ∧
          (∀ e, sl.get j = some e → H j ≠ 0 →
            sl'.get j = some { data := e.data, refs := H j })) ∧
        (∀ j, j ∉ q → sl'.get j = sl.get j) := by
  induction q with
  | nil =>
    intro sl evs H hall
    exact ⟨sl, evs, rfl, fun j hj => absurd hj (List.not_mem_nil j), fun j _ => rfl⟩
  | cons k q ih =>
    intro sl evs H hall
    obtain ⟨e, hk, hcount⟩ := hall k (List.mem_cons_self k q)
    rw [List.count_cons_self] at hcount
    by_cases hz : q.count k + H k = 0
    · -- this release brings the count to zero: remove, emit `Drop(k)`
      have hknq : k ∉ q := by
        intro hmem
        have := List.count_pos_iff_mem.2 hmem
        omega
      have hH0 : H k = 0 := by omega
      have hrefs : e.refs = 1 := by omega
      have hzb : (e.release).2 = true := by
        simp [Entry.release, hrefs]
      have hget₁ : ∀ j, j ≠ k →
          (Slab.remove (sl.set k (e.release).1) k).get j = sl.get j := by
        intro j hj
        rw [Slab.get_remove_ne _ hj, Slab.get_set_ne _ _ hj]
      have hall' : ∀ j ∈ q,
          ∃ e', (Slab.remove (sl.set k (e.release).1) k).get j = some e' ∧
            e'.refs = q.count j + H j := by
        intro j hj
        have hjk : j ≠ k := fun he => hknq (he ▸ hj)
        obtain ⟨e', hj', hc'⟩ := hall j (List.mem_cons_of_mem k hj)
        rw [List.count_cons_of_ne hjk] at hc'
        exact ⟨e', by rw [hget₁ j hjk]; exact hj', hc'⟩
      obtain ⟨sl', evs', hrun, hmem, hnotmem⟩ :=
        ih (Slab.remove (sl.set k (e.release).1) k) (evs ++ [Event.drop k]) H hall'
      refine ⟨sl', evs', ?_, ?_, ?_⟩
      · simp only [drainReleases, hk, hzb, if_true]
        exact hrun
      · intro j hj
        rcases List.mem_cons.1 hj with rfl | hj'
        · refine ⟨fun _ => ?_, fun e₀ _ hH => absurd hH0 hH⟩
          rw [hnotmem j hknq]
          exact Slab.get_remove_self _ _
        · refine ⟨(hmem j hj').1, fun e₀ he₀ hH => ?_⟩
          have hjk : j ≠ k := fun he => hknq (he ▸ hj')
          exact (hmem j hj').2 e₀ (by rw [hget₁ j hjk]; exact he₀) hH
      · intro j hj
        have hjk : j ≠ k := fun he => hj (he ▸ List.mem_cons_self k q)
        have hjq : j ∉ q := fun hq => hj (List.mem_cons_of_mem k hq)
        rw [hnotmem j hjq, hget₁ j hjk]
    · -- the count stays positive at this step
      have hrefs1 : e.refs - 1 = q.count k + H k := by omega
      have hzb : ¬ ((e.release).2 = true) := by
        simp [Entry.release, hrefs1]
        omega
      have hget₁ : ∀ j, j ≠ k → (sl.set k (e.release).1).get j = sl.get j := by
        intro j hj
        rw [Slab.get_set_ne _ _ hj]
      have hget₁k : (sl.set k (e.release).1).get k = some (e.release).1 :=
        Slab.get_set_self _ hk
      have hall' : ∀ j ∈ q,
          ∃ e', (sl.set k (e.release).1).get j = some e' ∧
            e'.refs = q.count j + H j := by
        intro j hj
        by_cases hjk : j = k
        · subst hjk
          refine ⟨(e.release).1, hget₁k, ?_⟩
          show e.refs - 1 = q.count j + H j
          omega
        · obtain ⟨e', hj', hc'⟩ := hall j (List.mem_cons_of_mem k hj)
          rw [List.count_cons_of_ne hjk] at hc'
          exact ⟨e', by rw [hget₁ j hjk]; exact hj', hc'⟩
      obtain ⟨sl', evs', hrun, hmem, hnotmem⟩ :=
        ih (sl.set k (e.release).1) evs H hall'
      refine ⟨sl', evs', ?_, ?_, ?_⟩
      · simp only [drainReleases, hk, hzb, if_false]
        exact hrun
      · intro j hj
        rcases List.mem_cons.1 hj with rfl | hj'
        · by_cases hkq : j ∈ q
          · refine ⟨(hmem j hkq).1, fun e₀ he₀ hH => ?_⟩
            have he : e₀ = e := by
              rw [hk] at he₀; exact (Option.some_inj.1 he₀).symm
            rw [he]
            exact (hmem j hkq).2 (e.release).1 hget₁k hH
          · have hcnt0 : q.count j = 0 := by
              rcases Nat.eq_zero_or_pos (q.count j) with h0 | hpos
              · exact h0
              · exact absurd (List.count_pos_iff_mem.1 hpos) hkq
            refine ⟨fun h0 => absurd (by omega : q.count j + H j = 0) hz,
              fun e₀ he₀ hH => ?_⟩
            have he : e₀ = e := by
              rw [hk] at he₀; exact (Option.some_inj.1 he₀).symm
            rw [he, hnotmem j hkq, hget₁k]
            show (some { data := e.data, refs := e.refs - 1 } : Option (Entry T)) =
              some { data := e.data, refs := H j }
            rw [hrefs1, hcnt0, Nat.zero_add]
        · refine ⟨(hmem j hj').1, fun e₀ he₀ hH => ?_⟩
          by_cases hjk : j = k
          · subst hjk
            have he : e₀ = e := by
              rw [hk] at he₀; exact (Option.some_inj.1 he₀).symm
            rw [he]
            exact (hmem j hj').2 (e.release).1 hget₁k hH
          · exact (hmem j hj').2 e₀ (by rw [hget₁ j hjk]; exact he₀) hH
      · intro j hj
        have hjk : j ≠ k := fun he => hj (he ▸ List.mem_cons_self k q)
        have hjq : j ∉ q := fun hq => hj (List.mem_cons_of_mem k hq)
        rw [hnotmem j hjq, hget₁ j hjk]

/-! ### One collection pass from an invariant state -/

/-- From any state satisfying the reachability invariant, a collection
pass succeeds (no panic), keeps the slab and event invariants, and leaves
each slot determined by its live-handle count: removed when no live
handle remains, otherwise at a count equal to the number of live handles
for its index. -/
theorem collect_core (sys : Sys) (hinv : CombInv sys) :
    ∃ (sl₃ : Slab (Entry Unit)) (evs₃ : List Event),
      sys.scene.garbage_collect =
        some { sys.scene with slab := sl₃, grabs := [], releases := [], events := evs₃ } ∧
      SlabInv sl₃ ∧ EvSt sl₃ evs₃ ∧
      (∀ i, sl₃.get i =
        if sys.handles.count i = 0 then none
        else (sys.scene.slab.get i).map fun e =>
          { data := e.data, refs := sys.handles.count i }) := by
  obtain ⟨hsl, hcnt, hev⟩ := hinv
  have hlivegrabs : ∀ j ∈ sys.scene.grabs, ((sys.scene.slab.get j).isSome) := by
    intro j hj
    rcases hg : sys.scene.slab.get j with _ | e
    · have hdead := (hcnt j).2 hg
      have := List.count_pos_iff_mem.2 hj
      omega
    · rfl
  obtain ⟨sl₂, hG⟩ := Option.isSome_iff_exists.1
    (drainGrabs_isSome sys.scene.grabs sys.scene.slab hlivegrabs)
  have hshape := drainGrabs_shape sys.scene.grabs _ _ hG
  have hsl₂ := drainGrabs_slabInv sys.scene.grabs _ _ hsl hG
  have hev₂ := drainGrabs_evst sys.scene.grabs _ _ sys.scene.events hG hev
  have hall : ∀ j ∈ sys.scene.releases, ∃ e₂, sl₂.get j = some e₂ ∧
      e₂.refs = sys.scene.releases.count j + sys.handles.count j := by
    intro j hj
    rcases hg : sys.scene.slab.get j with _ | e
    · have hdead := (hcnt j).2 hg
      have := List.count_pos_iff_mem.2 hj
      omega
    · have hbal := ((hcnt j).1 e hg).2.1
      refine ⟨{ data := e.data, refs := e.refs + sys.scene.grabs.count j }, ?_, ?_⟩
      · rw [hshape j, hg, Option.map_some']
      · show e.refs + sys.scene.grabs.count j =
          sys.scene.releases.count j + sys.handles.count j
        omega
  obtain ⟨sl₃, evs₃, hR, hmem, hnotmem⟩ :=
    drainReleases_success_spec sys.scene.releases sl₂ sys.scene.events
      (fun j => sys.handles.count j) hall
  refine ⟨sl₃, evs₃, ?_, ?_, ?_, ?_⟩
  · unfold Scene.garbage_collect
    rw [hG, Option.some_bind, hR, Option.map_some']
  · exact drainReleases_slabInv sys.scene.releases _ _ _ _ hsl₂ hR
  · exact drainReleases_evst sys.scene.releases _ _ _ _ hR hev₂
  · intro i
    by_cases hiR : i ∈ sys.scene.releases
    · rcases hg : sys.scene.slab.get i with _ | e
      · have hdead := (hcnt i).2 hg
        have := List.count_pos_iff_mem.2 hiR
        omega
      · have hbal := ((hcnt i).1 e hg).2.1
        by_cases h0 : sys.handles.count i = 0
        · rw [if_pos h0]
          exact (hmem i hiR).1 h0
        · rw [if_neg h0, Option.map_some']
          have hsl₂i : sl₂.get i =
              some { data := e.data, refs := e.refs + sys.scene.grabs.count i } := by
            rw [hshape i, hg, Option.map_some']
          exact (hmem i hiR).2
            { data := e.data, refs := e.refs + sys.scene.grabs.count i } hsl₂i h0
    · have hcR0 : sys.scene.releases.count i = 0 := by
        rcases Nat.eq_zero_or_pos (sys.scene.releases.count i) with h0 | hpos
        · exact h0
        · exact absurd (List.count_pos_iff_mem.1 hpos) hiR
      rw [hnotmem i hiR, hshape i]
      rcases hg : sys.scene.slab.get i with _ | e
      · have hdead := (hcnt i).2 hg
        rw [if_pos hdead.1]
        simp
      · obtain ⟨hpos, hbal, _⟩ := (hcnt i).1 e hg
        have h0 : sys.handles.count i ≠ 0 := by omega
        rw [if_neg h0, Option.map_some', Option.map_some']
        have : sys.handles.count i = e.refs + sys.scene.grabs.count i := by omega
        rw [this]

/-! ### Step preservation of the invariant -/

theorem count_snoc_self (q : List Nat) (i : Nat) : (q ++ [i]).count i = q.count i + 1 := by
  simp [List.count_append]

theorem count_snoc_ne (q : List Nat) {i j : Nat} (h : j ≠ i) :
    (q ++ [i]).count j = q.count j := by
  simp [List.count_append, List.count_singleton', h.symm]

theorem step_insert_inv (sys sys' : Sys) (hinv : CombInv sys)
    (h : step sys Op.insertOp = some sys') : CombInv sys' := by
  have hsl := hinv.1
  have hcnt := hinv.2.1
  have hbal := hinv.2.2.1
  have hpre := hinv.2.2.2
  simp only [step, Option.some_inj] at h
  subst h
  have hfresh : sys.scene.slab.get (sys.scene.slab.insert { data := (), refs := 1 }).2 =
      none := Slab.insert_fresh _ hsl
  have hdead := (hcnt _).2 hfresh
  refine ⟨SlabInv.insert _ hsl, fun i => ⟨?_, ?_⟩, fun i => ?_, ?_⟩
  · -- live clause of the count invariant
    intro e he
    replace he : (sys.scene.slab.insert { data := (), refs := 1 }).1.get i = some e := he
    show 1 ≤ e.refs ∧
      e.refs + sys.scene.grabs.count i =
        ((sys.scene.slab.insert { data := (), refs := 1 }).2 :: sys.handles).count i +
          sys.scene.releases.count i ∧
      ((sys.scene.slab.insert { data := (), refs := 1 }).2 :: sys.handles).count i +
        (if i = (sys.scene.slab.insert { data := (), refs := 1 }).2 then 0 else sys.r i) =
        1 + (if i = (sys.scene.slab.insert { data := (), refs := 1 }).2 then 0 else sys.g i)
    by_cases hi : i = (sys.scene.slab.insert { data := (), refs := 1 }).2
    · subst hi
      rw [Slab.get_insert_self _ hsl] at he
      have hrefs : e.refs = 1 := by
        rw [(Option.some_inj.1 he).symm]
      rw [List.count_cons_self, if_pos rfl, if_pos rfl]
      refine ⟨?_, ?_, ?_⟩ <;> omega
    · rw [Slab.get_insert_ne _ hi] at he
      obtain ⟨h1, h2, h3⟩ := (hcnt i).1 e he
      rw [List.count_cons_of_ne hi, if_neg hi, if_neg hi]
      exact ⟨h1, h2, h3⟩
  · -- vacant clause of the count invariant
    intro he
    replace he : (sys.scene.slab.insert { data := (), refs := 1 }).1.get i = none := he
    show ((sys.scene.slab.insert { data := (), refs := 1 }).2 :: sys.handles).count i = 0 ∧
      sys.scene.grabs.count i = 0 ∧ sys.scene.releases.count i = 0
    by_cases hi : i = (sys.scene.slab.insert { data := (), refs := 1 }).2
    · subst hi
      rw [Slab.get_insert_self _ hsl] at he
      exact Option.noConfusion he
    · rw [Slab.get_insert_ne _ hi] at he
      obtain ⟨h1, h2, h3⟩ := (hcnt i).2 he
      rw [List.count_cons_of_ne hi]
      exact ⟨h1, h2, h3⟩
  · -- event balance
    show newCount i (sys.scene.events ++
        [Event.new (sys.scene.slab.insert { data := (), refs := 1 }).2]) =
      dropCount i (sys.scene.events ++
        [Event.new (sys.scene.slab.insert { data := (), refs := 1 }).2]) +
      if ((sys.scene.slab.insert { data := (), refs := 1 }).1.get i).isSome then 1 else 0
    by_cases hi : i = (sys.scene.slab.insert { data := (), refs := 1 }).2
    · subst hi
      have hb := hbal (sys.scene.slab.insert { data := (), refs := 1 }).2
      rw [hfresh] at hb
      rw [newCount_append, dropCount_append, newCount_single_new_self,
        dropCount_single_new, Slab.get_insert_self _ hsl]
      simp only [Option.isSome_some, if_true]
      simp only [Option.isSome_none, Bool.false_eq_true, if_false] at hb
      omega
    · have hb := hbal i
      rw [newCount_append, dropCount_append, newCount_single_new_ne hi,
        dropCount_single_new, Slab.get_insert_ne _ hi]
      omega
  · -- prefix discipline
    show PrefixAlt (sys.scene.events ++
      [Event.new (sys.scene.slab.insert { data := (), refs := 1 }).2])
    refine prefixAlt_append_new hpre ?_
    have hb := hbal (sys.scene.slab.insert { data := (), refs := 1 }).2
    rw [hfresh] at hb
    simpa using hb

/-- Pushing one grab for a live slot `i` and registering one more live
handle for it (the common effect of `Id::clone` and a successful
`Scene::id`) preserves the invariant. -/
theorem grabPush_inv (sys : Sys) (i : Nat) (e : Entry Unit) (hinv : CombInv sys)
    (hg : sys.scene.slab.get i = some e) :
    CombInv { scene := { sys.scene with grabs := sys.scene.grabs ++ [i] },
              handles := i :: sys.handles,
              g := fun j => if j = i then sys.g j + 1 else sys.g j,
              r := sys.r } := by
  refine ⟨hinv.1, fun j => ⟨?_, ?_⟩, hinv.2.2.1, hinv.2.2.2⟩
  · intro e' he'
    replace he' : sys.scene.slab.get j = some e' := he'
    show 1 ≤ e'.refs ∧
      e'.refs + (sys.scene.grabs ++ [i]).count j =
        (i :: sys.handles).count j + sys.scene.releases.count j ∧
      (i :: sys.handles).count j + sys.r j =
        1 + (if j = i then sys.g j + 1 else sys.g j)
    obtain ⟨h1, h2, h3⟩ := (hinv.2.1 j).1 e' he'
    by_cases hj : j = i
    · subst hj
      rw [count_snoc_self, List.count_cons_self, if_pos rfl]
      exact ⟨h1, by omega, by omega⟩
    · rw [count_snoc_ne _ hj, List.count_cons_of_ne hj, if_neg hj]
      exact ⟨h1, h2, h3⟩
  · intro he'
    replace he' : sys.scene.slab.get j = none := he'
    show (i :: sys.handles).count j = 0 ∧ (sys.scene.grabs ++ [i]).count j = 0 ∧
      sys.scene.releases.count j = 0
    obtain ⟨h1, h2, h3⟩ := (hinv.2.1 j).2 he'
    have hj : j ≠ i := by
      intro hji; subst hji
      rw [hg] at he'; exact Option.noConfusion he'
    rw [count_snoc_ne _ hj, List.count_cons_of_ne hj]
    exact ⟨h1, h2, h3⟩

theorem step_clone_inv (sys sys' : Sys) (i : Nat) (hinv : CombInv sys)
    (h : step sys (Op.cloneOp i) = some sys') : CombInv sys' := by
  by_cases hm : i ∈ sys.handles
  · simp only [step] at h
    rw [if_pos hm] at h
    have h' := Option.some_inj.1 h
    subst h'
    rcases hg : sys.scene.slab.get i with _ | e
    · exfalso
      have hdead := (hinv.2.1 i).2 hg
      have := List.count_pos_iff_mem.2 hm
      omega
    · exact grabPush_inv sys i e hinv hg
  · simp only [step] at h
    rw [if_neg hm] at h
    exact Option.noConfusion h

theorem step_drop_inv (sys sys' : Sys) (i : Nat) (hinv : CombInv sys)
    (h : step sys (Op.dropOp i) = some sys') : CombInv sys' := by
  by_cases hm : i ∈ sys.handles
  · simp only [step] at h
    rw [if_pos hm] at h
    have h' := Option.some_inj.1 h
    subst h'
    have hcpos : 0 < sys.handles.count i := List.count_pos_iff_mem.2 hm
    rcases hg : sys.scene.slab.get i with _ | e
    · exfalso
      have hdead := (hinv.2.1 i).2 hg
      omega
    · refine ⟨hinv.1, fun j => ⟨?_, ?_⟩, hinv.2.2.1, hinv.2.2.2⟩
      · intro e' he'
        replace he' : sys.scene.slab.get j = some e' := he'
        show 1 ≤ e'.refs ∧
          e'.refs + sys.scene.grabs.count j =
            (sys.handles.erase i).count j + (sys.scene.releases ++ [i]).count j ∧
          (sys.handles.erase i).count j +
            (if j = i then sys.r j + 1 else sys.r j) = 1 + sys.g j
        obtain ⟨h1, h2, h3⟩ := (hinv.2.1 j).1 e' he'
        by_cases hj : j = i
        · subst hj
          rw [List.count_erase_self, count_snoc_self, if_pos rfl]
          exact ⟨h1, by omega, by omega⟩
        · rw [List.count_erase_of_ne hj, count_snoc_ne _ hj, if_neg hj]
          exact ⟨h1, h2, h3⟩
      · intro he'
        replace he' : sys.scene.slab.get j = none := he'
        show (sys.handles.erase i).count j = 0 ∧ sys.scene.grabs.count j = 0 ∧
          (sys.scene.releases ++ [i]).count j = 0
        obtain ⟨h1, h2, h3⟩ := (hinv.2.1 j).2 he'
        have hj : j ≠ i := by
          intro hji; subst hji
          rw [hg] at he'; exact Option.noConfusion he'
        rw [List.count_erase_of_ne hj, count_snoc_ne _ hj]
        exact ⟨h1, h2, h3⟩
  · simp only [step] at h
    rw [if_neg hm] at h
    exact Option.noConfusion h

theorem step_id_inv (sys sys' : Sys) (i : Nat) (hinv : CombInv sys)
    (h : step sys (Op.idOp i) = some sys') : CombInv sys' := by
  rcases hg : sys.scene.slab.get i with _ | e
  · simp only [step, Scene.id, hg] at h
    have h' := Option.some_inj.1 h
    subst h'
    exact hinv
  · simp only [step, Scene.id, hg] at h
    have h' := Option.some_inj.1 h
    subst h'
    exact grabPush_inv sys i e hinv hg

theorem step_collect_inv (sys sys' : Sys) (hinv : CombInv sys)
    (h : step sys Op.collectOp = some sys') : CombInv sys' := by
  obtain ⟨sl₃, evs₃, hgc, hslinv, hevst, hchar⟩ := collect_core sys hinv
  simp only [step] at h
  rw [hgc, Option.map_some'] at h
  have h' := Option.some_inj.1 h
  subst h'
  refine ⟨hslinv, fun i => ⟨?_, ?_⟩, hevst.1, hevst.2⟩
  · intro e' he'
    replace he' : sl₃.get i = some e' := he'
    show 1 ≤ e'.refs ∧
      e'.refs + ([] : List Nat).count i =
        sys.handles.count i + ([] : List Nat).count i ∧
      sys.handles.count i + sys.r i = 1 + sys.g i
    rw [hchar i] at he'
    by_cases h0 : sys.handles.count i = 0
    · rw [if_pos h0] at he'
      exact Option.noConfusion he'
    · rw [if_neg h0] at he'
      rcases hg : sys.scene.slab.get i with _ | e₀
      · rw [hg] at he'
        exact Option.noConfusion he'
      · rw [hg, Option.map_some'] at he'
        have he'' := Option.some_inj.1 he'
        have hrefs : e'.refs = sys.handles.count i := by rw [← he'']
        have h3 := ((hinv.2.1 i).1 e₀ hg).2.2
        rw [List.count_nil]
        exact ⟨by omega, by omega, h3⟩
  · intro he'
    replace he' : sl₃.get i = none := he'
    show sys.handles.count i = 0 ∧ ([] : List Nat).count i = 0 ∧
      ([] : List Nat).count i = 0
    rw [List.count_nil]
    refine ⟨?_, rfl, rfl⟩
    rw [hchar i] at he'
    by_cases h0 : sys.handles.count i = 0
    · exact h0
    · rw [if_neg h0] at he'
      rcases hg : sys.scene.slab.get i with _ | e₀
      · exact ((hinv.2.1 i).2 hg).1
      · rw [hg, Option.map_some'] at he'
        exact Option.noConfusion he'

theorem step_preserves (sys sys' : Sys) (op : Op) (hinv : CombInv sys)
    (h : step sys op = some sys') : CombInv sys' := by
  cases op with
  | insertOp => exact step_insert_inv sys sys' hinv h
  | cloneOp i => exact step_clone_inv sys sys' i hinv h
  | dropOp i => exact step_drop_inv sys sys' i hinv h
  | idOp i => exact step_id_inv sys sys' i hinv h
  | collectOp => exact step_collect_inv sys sys' hinv h

theorem init_inv : CombInv initSys := by
  have hget : ∀ i, (Slab.empty (Entry Unit)).get i = none := by
    intro i
    simp [Slab.empty, Slab.get]
  refine ⟨⟨List.nodup_nil, fun i hi => absurd hi (List.not_mem_nil i)⟩,
    fun i => ⟨fun e he => ?_, fun _ => ⟨rfl, rfl, rfl⟩⟩, fun i => ?_, ?_⟩
  · replace he : (Slab.empty (Entry Unit)).get i = some e := he
    rw [hget i] at he
    exact Option.noConfusion he
  · show newCount i [] = dropCount i [] +
      if ((Slab.empty (Entry Unit)).get i).isSome then 1 else 0
    rw [hget i]
    simp [newCount, dropCount]
  · intro i l₁ l₂ hsplit
    obtain ⟨rfl, rfl⟩ := List.append_eq_nil.1 hsplit.symm
    simp [newCount, dropCount]

theorem run_inv_aux (ops : List Op) :
    ∀ sys0 sys : Sys, CombInv sys0 → List.foldlM step sys0 ops = some sys →
      CombInv sys := by
  induction ops with
  | nil =>
    intro sys0 sys h0 h
    have h' := Option.some_inj.1 h
    subst h'
    exact h0
  | cons op ops ih =>
    intro sys0 sys h0 h
    simp only [List.foldlM_cons] at h
    rcases hstep : step sys0 op with _ | sys1
    · rw [hstep] at h
      exact Option.noConfusion h
    · rw [hstep] at h
      exact ih sys1 sys (step_preserves sys0 sys1 op h0 hstep) h

/-- Every state reached by a whole operation history satisfies the
combined invariant. -/
theorem run_inv (ops : List Op) (sys : Sys) (h : run ops = some sys) :
    CombInv sys :=
  run_inv_aux ops initSys sys init_inv h

/-! ### C1: the slot-count reconciliation law -/

/-- **C1.** For every operation history (insert / clone / drop /
`Scene::id` / collect), after any `garbage_collect`: every slot still
present holds a count equal to 1 (from its insert) plus the grabs
enqueued for its index minus the releases enqueued for it since that
insert (the ghost counters `g`/`r`, which by construction count exactly
the enqueued-hence-drained operations — the queues are empty after every
pass); and a slot present before the pass is removed during it if and
only if that value reaches zero. -/
theorem scene_collect_count_spec (ops : List Op) (pre post : Sys)
    (h1 : run ops = some pre) (h2 : step pre Op.collectOp = some post) :
    ∀ i : Nat,
      (∀ e, post.scene.slab.get i = some e →
        (e.refs : Int) = 1 + (post.g i : Int) - (post.r i : Int)) ∧
      ((pre.scene.slab.get i).isSome →
        (post.scene.slab.get i = none ↔
          (1 : Int) + (post.g i : Int) - (post.r i : Int) = 0)) := by
  have hinv := run_inv ops pre h1
  obtain ⟨sl₃, evs₃, hgc, _, _, hchar⟩ := collect_core pre hinv
  simp only [step] at h2
  rw [hgc, Option.map_some'] at h2
  have h' := Option.some_inj.1 h2
  subst h'
  intro i
  constructor
  · intro e he
    replace he : sl₃.get i = some e := he
    show (e.refs : Int) = 1 + (pre.g i : Int) - (pre.r i : Int)
    rw [hchar i] at he
    by_cases h0 : pre.handles.count i = 0
    · rw [if_pos h0] at he
      exact Option.noConfusion he
    · rw [if_neg h0] at he
      rcases hg : pre.scene.slab.get i with _ | e₀
      · rw [hg] at he
        exact Option.noConfusion he
      · rw [hg, Option.map_some'] at he
        have he'' := Option.some_inj.1 he
        have hrefs : e.refs = pre.handles.count i := by rw [← he'']
        have h3 := ((hinv.2.1 i).1 e₀ hg).2.2
        omega
  · intro hsome
    show sl₃.get i = none ↔ (1 : Int) + (pre.g i : Int) - (pre.r i : Int) = 0
    rcases hg : pre.scene.slab.get i with _ | e₀
    · rw [hg] at hsome
      simp at hsome
    · have h3 := ((hinv.2.1 i).1 e₀ hg).2.2
      rw [hchar i]
      by_cases h0 : pre.handles.count i = 0
      · rw [if_pos h0]
        exact ⟨fun _ => by omega, fun _ => rfl⟩
      · rw [if_neg h0, hg, Option.map_some']
        constructor
        · intro hco
          exact Option.noConfusion hco
        · intro habs
          exfalso
          omega

/-- Witness for C1: history insert, clone, drop, then a collection pass;
slot 0 survives at count 1 = 1 + 1 − 1. -/
theorem scene_collect_count_spec_witness :
    (∀ e, c1Post.scene.slab.get 0 = some e →
      (e.refs : Int) = 1 + (c1Post.g 0 : Int) - (c1Post.r 0 : Int)) ∧
    ((c1Pre.scene.slab.get 0).isSome →
      (c1Post.scene.slab.get 0 = none ↔
        (1 : Int) + (c1Post.g 0 : Int) - (c1Post.r 0 : Int) = 0)) :=
  scene_collect_count_spec c1Ops c1Pre c1Post rfl rfl 0

/-! ### C3: a reused index's Drop event precedes its new New event -/

/-- **C3.** In the accumulated event buffer of any operation history,
between any two `New(i)` events — the second being the insert that
reuses index `i` after its removal — there is a `Drop(i)` event: the
`Drop(i)` of the removal appears strictly before the `New(i)` of the
later reuse. -/
theorem drop_event_precedes_reuse_new (ops : List Op) (sys : Sys)
    (h : run ops = some sys) (i : Nat) (l₁ l₂ l₃ : List Event)
    (hsplit : sys.scene.events = l₁ ++ Event.new i :: (l₂ ++ Event.new i :: l₃)) :
    Event.drop i ∈ l₂ := by
  have hp := (run_inv ops sys h).2.2.2
  rw [hsplit] at hp
  have hA := hp i l₁ (Event.new i :: (l₂ ++ Event.new i :: l₃)) rfl
  have hsB : l₁ ++ Event.new i :: (l₂ ++ Event.new i :: l₃) =
      (l₁ ++ [Event.new i]) ++ (l₂ ++ Event.new i :: l₃) := by
    simp
  have hB := hp i (l₁ ++ [Event.new i]) (l₂ ++ Event.new i :: l₃) hsB
  have hsC : l₁ ++ Event.new i :: (l₂ ++ Event.new i :: l₃) =
      (((l₁ ++ [Event.new i]) ++ l₂) ++ [Event.new i]) ++ l₃ := by
    simp
  have hC := hp i (((l₁ ++ [Event.new i]) ++ l₂) ++ [Event.new i]) l₃ hsC
  rw [newCount_append, dropCount_append, newCount_single_new_self,
    dropCount_single_new] at hB
  rw [newCount_append, dropCount_append, newCount_append, dropCount_append,
    newCount_append, dropCount_append, newCount_single_new_self,
    dropCount_single_new] at hC
  have hpos : 0 < dropCount i l₂ := by omega
  exact List.count_pos_iff_mem.1 hpos

/-- Witness for C3: insert (index 0), drop, collect (emits `Drop(0)`),
insert again (index 0 reused): the buffer is
`[New 0, Drop 0, New 0]` and `Drop 0` sits strictly between the two
`New 0` events. -/
theorem drop_event_precedes_reuse_new_witness :
    Event.drop 0 ∈ [Event.drop 0] :=
  drop_event_precedes_reuse_new c3Ops c3Sys rfl 0 [] [Event.drop 0] [] rfl

end SceneVerif
